import Mathlib

/-!
Verification of the wordly backend game engine.

The Python sources are shallowly embedded: strings become `List Char`
(or `String` for opaque identifiers), Python dicts used as counters
become functions `Char → Nat`, fallible operations return `Except`,
and SQLAlchemy commit/rollback becomes explicit state threading where
an `Except.error` result leaves the persisted store unchanged.
-/

namespace Wordly

/-- The three per-letter statuses produced by `evaluate_guess`
(`"absent"`, `"present"`, `"correct"` in the Python source). -/
inductive Status where
  | absent
  | present
  | correct
deriving DecidableEq, Repr

/-! ## Guess evaluator (src/backend/game_logic.py, `evaluate_guess`)

The Python function initialises `statuses = ["absent"] * len(word)`,
then walks `zip(guess, word)` twice.  `firstPass` performs the first
loop: it produces the statuses written so far (`correct` at exact
matches, the initial `absent` elsewhere, including the tail of `word`
beyond the zip) together with the `remaining` counter dict.
`secondPass` performs the second loop, rewriting non-matching
positions to `present` while the counter for the guessed letter is
positive.  Positions of `word` beyond `len(guess)` are never touched
by either loop. -/

def firstPass : List Char → List Char → (Char → Nat) → List Status × (Char → Nat)
  | g :: gs, w :: ws, rem =>
      if g = w then
        let r := firstPass gs ws rem
        (Status.correct :: r.1, r.2)
      else
        let r := firstPass gs ws (fun c => if c = w then rem c + 1 else rem c)
        (Status.absent :: r.1, r.2)
  | [], ws, rem => (ws.map (fun _ => Status.absent), rem)
  | _ :: _, [], rem => ([], rem)

def secondPass : List Char → List Char → List Status → (Char → Nat) → List Status
  | g :: gs, w :: ws, s :: ss, rem =>
      if g = w then s :: secondPass gs ws ss rem
      else if 0 < rem g then
        Status.present :: secondPass gs ws ss (fun c => if c = g then rem c - 1 else rem c)
      else s :: secondPass gs ws ss rem
  | _, _, ss, _ => ss

def evaluate_guess (guess word : List Char) : List Status :=
  let r := firstPass guess word (fun _ => 0)
  secondPass guess word r.1 r.2

/-! ## The scoring rule as the specification words it

Modelled from the spec's two-pass rule, for the refinement claim: a
first pass marks position `i` `correct` when `guess[i] = secretWord[i]`
and otherwise counts `secretWord[i]` into a per-letter remaining
counter; a second pass, left to right over the non-correct positions,
marks `present` and decrements the counter when the counter for
`guess[i]` is positive, and `absent` otherwise. -/

def specRemaining (pairs : List (Char × Char)) (c : Char) : Nat :=
  (pairs.filter (fun p => p.1 ≠ p.2 ∧ p.2 = c)).length

def specSecondPass : List (Char × Char) → (Char → Nat) → List Status
  | [], _ => []
  | (g, w) :: rest, rem =>
      if g = w then Status.correct :: specSecondPass rest rem
      else if 0 < rem g then
        Status.present :: specSecondPass rest (fun c => if c = g then rem c - 1 else rem c)
      else Status.absent :: specSecondPass rest rem

def specEvaluate (guess word : List Char) : List Status :=
  specSecondPass (guess.zip word) (specRemaining (guess.zip word))

/-! ## Game session store (src/backend/game_store.py)

`Game`, `PlayerState`, `PlayerGuess` and `PlayerKeyboardStatus` mirror the
SQLAlchemy models restricted to the fields the store logic reads; the rows
of one game's `player_state` table become a `List PlayerState`.  SQLAlchemy
commit/rollback becomes explicit state threading: a function returns the
updated store only on success (`session.commit()` is the last statement of
`apply_guess_for_player`), and an exception leaves the persisted store as
it was. -/

structure Game where
  uid : String
  word : List Char
  max_guesses : Nat
deriving DecidableEq, Repr

structure PlayerGuess where
  guess_number : Nat
  guess_text : List Char
  statuses : List Status
deriving DecidableEq, Repr

structure PlayerKeyboardStatus where
  letter : Char
  status : Status
deriving DecidableEq, Repr

structure PlayerState where
  uid : String
  name : String
  is_winner : Bool
  start_time : Nat
  finish_time : Option Nat
  guesses : List PlayerGuess
  keyboard_statuses : List PlayerKeyboardStatus
deriving DecidableEq, Repr

/-- `InvalidGuessSequenceError` / `PlayerStateConflictError`. -/
inductive StoreError where
  | invalidGuessSequence (msg : String)
  | playerStateConflict (msg : String)
deriving DecidableEq, Repr

/-- `_STATUS_PRIORITY.get(status, 0)`; the default 0 branch is unreachable
because statuses always come from `evaluate_guess`. -/
def statusPriority : Status → Nat
  | Status.absent => 1
  | Status.present => 2
  | Status.correct => 3

/-- One step of `_upsert_keyboard_statuses`: the dict lookup `existing.get`
followed by either appending a fresh `PlayerKeyboardStatus` row or raising
the stored status when the new rank is strictly higher.  Letters are unique
in reachable rows (DB unique constraint), so first-match update equals the
dict semantics. -/
def upsertOne (ks : List PlayerKeyboardStatus) (letter : Char) (status : Status) :
    List PlayerKeyboardStatus :=
  match ks with
  | [] => [⟨letter, status⟩]
  | k :: rest =>
    if k.letter = letter then
      (if statusPriority k.status < statusPriority status then ⟨k.letter, status⟩ else k) :: rest
    else
      k :: upsertOne rest letter status

/-- `_upsert_keyboard_statuses`: fold the zip of guess letters (uppercased)
and statuses into the stored keyboard rows. -/
def upsert_keyboard_statuses (ks : List PlayerKeyboardStatus) :
    List (Char × Status) → List PlayerKeyboardStatus
  | [] => ks
  | p :: rest => upsert_keyboard_statuses (upsertOne ks p.1.toUpper p.2) rest

/-- `_validate_guess_sequence`: sorted guess numbers must number at most
`max_guesses` and, when nonempty, form `list(range(1, len + 1))`. -/
def validate_guess_sequence (guesses : List PlayerGuess) (max_guesses : Nat) :
    Except StoreError Unit :=
  if max_guesses
      < (List.insertionSort (· ≤ ·) (guesses.map (fun g => g.guess_number))).length then
    Except.error (StoreError.invalidGuessSequence "Too many guesses for this game.")
  else if List.insertionSort (· ≤ ·) (guesses.map (fun g => g.guess_number)) ≠ [] ∧
      List.insertionSort (· ≤ ·) (guesses.map (fun g => g.guess_number))
        ≠ List.range' 1
            (List.insertionSort (· ≤ ·) (guesses.map (fun g => g.guess_number))).length then
    Except.error
      (StoreError.invalidGuessSequence "Guesses must form a contiguous sequence starting at 1.")
  else
    Except.ok ()

/-- `get_player_state_record`: the row of this game's store with the given
player uid. -/
def lookupPlayer (store : List PlayerState) (uid : String) : Option PlayerState :=
  store.find? (fun p => p.uid == uid)

/-- Writing back a mutated ORM row: replace the row holding this uid. -/
def replacePlayer : List PlayerState → String → PlayerState → List PlayerState
  | [], _, _ => []
  | p :: rest, uid, r =>
    if p.uid == uid then r :: rest else p :: replacePlayer rest uid r

def has_name_conflict (store : List PlayerState) (uid name : String) : Bool :=
  store.any (fun p => p.name == name && p.uid != uid)

def conflictMessage (name : String) : String :=
  s!"The name {name} is already in use. Please choose another"

/-- `get_or_create_player_state` on one game's rows; returns the store as
the pending session sees it together with the found/created record. -/
def get_or_create_player_state (store : List PlayerState) (uid name : String) (now : Nat) :
    Except StoreError (List PlayerState × PlayerState) :=
  match lookupPlayer store uid with
  | some record =>
    if record.name ≠ name then
      if has_name_conflict store uid name then
        Except.error (StoreError.playerStateConflict (conflictMessage name))
      else
        Except.ok (replacePlayer store uid { record with name := name },
          { record with name := name })
    else
      Except.ok (store, record)
  | none =>
    if has_name_conflict store uid name then
      Except.error (StoreError.playerStateConflict (conflictMessage name))
    else
      let record : PlayerState :=
        { uid := uid, name := name, is_winner := false, start_time := now,
          finish_time := none, guesses := [], keyboard_statuses := [] }
      Except.ok (store ++ [record], record)

/-- `apply_guess_for_player`.  On success the returned store is the state
after `session.commit()`; an error means the transaction never commits. -/
def apply_guess_for_player (game : Game) (store : List PlayerState)
    (uid name : String) (guess : List Char) (now : Nat) :
    Except StoreError (List PlayerState × PlayerState) :=
  match get_or_create_player_state store uid name now with
  | Except.error e => Except.error e
  | Except.ok (store1, record) =>
    match validate_guess_sequence record.guesses game.max_guesses with
    | Except.error e => Except.error e
    | Except.ok _ =>
      match record.finish_time with
      | some _ =>
        Except.error (StoreError.invalidGuessSequence "Game is already over for this player.")
      | none =>
        if game.max_guesses < record.guesses.length + 1 then
          Except.error (StoreError.invalidGuessSequence "Maximum guesses reached for this game.")
        else
          let statuses := evaluate_guess guess game.word
          let record1 : PlayerState :=
            { record with
              guesses := record.guesses ++ [⟨record.guesses.length + 1, guess, statuses⟩],
              keyboard_statuses :=
                upsert_keyboard_statuses record.keyboard_statuses (guess.zip statuses) }
          let record2 : PlayerState :=
            if guess = game.word then
              { record1 with is_winner := true, finish_time := some now }
            else if game.max_guesses ≤ record.guesses.length + 1 then
              { record1 with is_winner := false, finish_time := some now }
            else
              record1
          Except.ok (replacePlayer store1 uid record2, record2)

/-- The store as persisted after a guess request: the committed store on
success, the unchanged store when the operation raised (rollback). -/
def storeAfterGuess (game : Game) (store : List PlayerState)
    (uid name : String) (guess : List Char) (now : Nat) : List PlayerState :=
  match apply_guess_for_player game store uid name guess now with
  | Except.ok r => r.1
  | Except.error _ => store

/-- The invariant of claim C7: stored guess numbers are exactly the
contiguous range `1..len(guesses)` (as the sorted comparison of
`_validate_guess_sequence` checks it). -/
def contiguousGuessNumbers (gs : List PlayerGuess) : Prop :=
  List.insertionSort (· ≤ ·) (gs.map (fun g => g.guess_number)) = List.range' 1 gs.length

instance : DecidablePred contiguousGuessNumbers := fun gs => by
  unfold contiguousGuessNumbers
  infer_instance

/-! ### Keyboard hint monotonicity -/

/-- The priority of the hint stored for a letter (0 when unseen), as the
serialized `keyboardStatuses` mapping reports it. -/
def hintRank (ks : List PlayerKeyboardStatus) (c : Char) : Nat :=
  match ks.find? (fun k => k.letter == c) with
  | some k => statusPriority k.status
  | none => 0

/-- The hint priority stored for player `uid`'s letter `c` in the persisted
store (0 when the player or the letter is unknown). -/
def storedHintRank (store : List PlayerState) (uid : String) (c : Char) : Nat :=
  match lookupPlayer store uid with
  | some r => hintRank r.keyboard_statuses c
  | none => 0

/-- One guess request against the store, as the session state machine
receives it. -/
structure GuessRequest where
  uid : String
  name : String
  guess : List Char
  now : Nat

/-- A whole sequence of guess requests applied through the
commit-or-rollback boundary. -/
def runGuesses (game : Game) (store : List PlayerState) :
    List GuessRequest → List PlayerState
  | [] => store
  | q :: rest =>
    runGuesses game (storeAfterGuess game store q.uid q.name q.guess q.now) rest

/-- The spec's "no further guesses are ever accepted": no guess request for
this player can return a successful result on this store. -/
def acceptsNoGuess (game : Game) (store : List PlayerState) (uid : String) : Prop :=
  ∀ name guess now store' rec2,
    apply_guess_for_player game store uid name guess now ≠ Except.ok (store', rec2)

/-! ## Score ledger (src/backend/app.py, `post_submit` / `sort_scores`)

`duration` and `timestamp` are Python floats in the source; they are
modeled as integers because the submit/conflict logic only ever compares
them for ordering, never does arithmetic on them. -/

structure ScoreEntry where
  uid : String
  name : String
  tries : Int
  duration : Int
  timestamp : Int
deriving DecidableEq, Repr

inductive SubmitError where
  | validation (msg : String)
  | conflict (msg : String)
deriving DecidableEq, Repr

/-- The sort key `(entry.tries, entry.duration, entry.timestamp)` compared
lexicographically, as Python tuple comparison does. -/
def scoreLe (a b : ScoreEntry) : Prop :=
  a.tries < b.tries ∨
    (a.tries = b.tries ∧
      (a.duration < b.duration ∨
        (a.duration = b.duration ∧ a.timestamp ≤ b.timestamp)))

instance : DecidableRel scoreLe := fun a b => by
  unfold scoreLe
  infer_instance

def sort_scores (scores : List ScoreEntry) : List ScoreEntry :=
  List.insertionSort scoreLe scores

/-- The `/api/submit` handler after input sanitation: positivity checks,
the per-device duplicate check, then append-sort-save. -/
def post_submit (scores : List ScoreEntry) (uid name : String)
    (tries duration now : Int) : Except SubmitError (ScoreEntry × List ScoreEntry) :=
  if tries ≤ 0 then
    Except.error (SubmitError.validation "tries must be positive.")
  else if duration ≤ 0 then
    Except.error (SubmitError.validation "duration must be positive.")
  else if scores.any (fun e => e.uid == uid) then
    Except.error (SubmitError.conflict "Score already submitted for this device.")
  else
    Except.ok (⟨uid, name, tries, duration, now⟩,
      sort_scores (scores ++ [⟨uid, name, tries, duration, now⟩]))

/-- The persisted ledger after a submit request: `save_scores` runs only on
the success path, so an error response leaves the ledger as it was. -/
def scoresAfterSubmit (scores : List ScoreEntry) (uid name : String)
    (tries duration now : Int) : List ScoreEntry :=
  match post_submit scores uid name tries duration now with
  | Except.ok r => r.2
  | Except.error _ => scores

/-! ## Game lifecycle (src/backend/game_store.py, `require_active_game`) -/

/-- `GameMismatchError` carries the active game so clients can resync. -/
structure GameMismatchError where
  active_game : Game
deriving DecidableEq, Repr

def require_active_game (active_game : Game) (game_uid : String) :
    Except GameMismatchError Game :=
  if game_uid ≠ active_game.uid then
    Except.error ⟨active_game⟩
  else
    Except.ok active_game

/-! ## Admin credential handling (src/backend/app.py) -/

/-- `load_admin_code`: the admin credential file modeled as
`Option String` (`none` = missing/unreadable); raises when absent,
strips the content otherwise. -/
def load_admin_code : Option String → Except String String
  | some content => Except.ok content.trim
  | none => Except.error "admin_code.txt is missing."

inductive AdminVerifyResponse where
  | valid (b : Bool)
  | err (status : Nat) (msg : String)
deriving DecidableEq, Repr

/-- `/api/admin/verify`: the `FileNotFoundError` from `load_admin_code` is
caught per request and turned into a 500 response. -/
def post_admin_verify (admin_file : Option String) (code : String) :
    AdminVerifyResponse :=
  match load_admin_code admin_file with
  | Except.error _ => AdminVerifyResponse.err 500 "Admin code unavailable."
  | Except.ok admin_code => AdminVerifyResponse.valid (code == admin_code)

def MAX_GUESSES : Nat := 6

structure JsonGameState where
  gameUid : String
  word : List Char
deriving DecidableEq, Repr

structure ConfigResponse where
  wordLength : Nat
  maxGuesses : Nat
  gameUid : String
deriving DecidableEq, Repr

/-- `/api/config`: built from the game state alone, with no admin-file
input. -/
def get_config (state : JsonGameState) : ConfigResponse :=
  ⟨state.word.length, MAX_GUESSES, state.gameUid⟩

/-! ### Concrete example values -/

def gameCAT : Game := ⟨"g1", ['C','A','T'], 6⟩

def freshAlice : PlayerState := ⟨"u1", "A", false, 0, none, [], []⟩

def dogRec : PlayerState :=
  ⟨"u1", "A", false, 0, none,
    [⟨1, ['D','O','G'], [Status.absent, Status.absent, Status.absent]⟩],
    [⟨'D', Status.absent⟩, ⟨'O', Status.absent⟩, ⟨'G', Status.absent⟩]⟩

def finishedAlice : PlayerState := ⟨"u1", "ALICE", false, 0, some 9, [], []⟩


/-! ### Basic facts about the two passes -/

theorem firstPass_snd (g w : List Char) (rem : Char → Nat) :
    (firstPass g w rem).2 = fun c => rem c + specRemaining (g.zip w) c := by
  induction g generalizing w rem with
  | nil =>
    funext c
    cases w <;> simp [firstPass, specRemaining]
  | cons x gs ih =>
    cases w with
    | nil => funext c; simp [firstPass, specRemaining]
    | cons y ws =>
      by_cases h : x = y
      · funext c
        simp only [firstPass, if_pos h, ih]
        simp [specRemaining, List.zip, List.filter, h]
      · funext c
        simp only [firstPass, if_neg h, ih]
        by_cases hc : c = y
        · subst hc
          simp [specRemaining, List.zip, List.filter, h]
          omega
        · have hyc : ¬ (y = c) := fun e => hc e.symm
          simp [specRemaining, List.zip, List.filter, h, hc, hyc]

theorem firstPass_fst (g w : List Char) (rem : Char → Nat) :
    (firstPass g w rem).1 =
      (g.zip w).map (fun p => if p.1 = p.2 then Status.correct else Status.absent)
        ++ List.replicate (w.length - g.length) Status.absent := by
  induction g generalizing w rem with
  | nil =>
    cases w with
    | nil => simp [firstPass]
    | cons y ws => simp [firstPass, List.map_const', List.replicate_succ]
  | cons x gs ih =>
    cases w with
    | nil => simp [firstPass]
    | cons y ws =>
      by_cases h : x = y <;>
        simp [firstPass, h, List.zip_cons_cons, ih]

theorem secondPass_nil (w : List Char) (ss : List Status) (rem : Char → Nat) :
    secondPass [] w ss rem = ss := by
  cases w <;> cases ss <;> rfl

theorem secondPass_eq_spec (g w : List Char) (rem : Char → Nat)
    (h : g.length = w.length) :
    secondPass g w
        ((g.zip w).map (fun p => if p.1 = p.2 then Status.correct else Status.absent)) rem
      = specSecondPass (g.zip w) rem := by
  induction g generalizing w rem with
  | nil =>
    cases w with
    | nil => simp [secondPass, specSecondPass]
    | cons y ws => simp at h
  | cons x gs ih =>
    cases w with
    | nil => simp at h
    | cons y ws =>
      have h' : gs.length = ws.length := by simpa using h
      simp only [List.zip_cons_cons, List.map_cons]
      by_cases hxy : x = y
      · simp [secondPass, specSecondPass, hxy, ih _ _ h']
      · by_cases hrem : 0 < rem x
        · simp [secondPass, specSecondPass, hxy, hrem, ih _ _ h']
        · simp [secondPass, specSecondPass, hxy, hrem, ih _ _ h']

theorem evaluate_eq_spec (g w : List Char) (h : g.length = w.length) :
    evaluate_guess g w = specEvaluate g w := by
  show secondPass g w (firstPass g w fun _ => 0).1 (firstPass g w fun _ => 0).2
      = specSecondPass (g.zip w) (specRemaining (g.zip w))
  rw [firstPass_fst, firstPass_snd]
  have hlen : w.length - g.length = 0 := by omega
  rw [hlen]
  simp only [List.replicate_zero, List.append_nil]
  have hfun : (fun c => 0 + specRemaining (g.zip w) c) = specRemaining (g.zip w) := by
    funext c; simp
  rw [hfun]
  exact secondPass_eq_spec g w _ h

theorem firstPass_self (g : List Char) (rem : Char → Nat) :
    firstPass g g rem = (List.replicate g.length Status.correct, rem) := by
  induction g with
  | nil => simp [firstPass]
  | cons x gs ih => simp [firstPass, ih, List.replicate_succ]

theorem secondPass_self (g : List Char) (ss : List Status) (rem : Char → Nat) :
    secondPass g g ss rem = ss := by
  induction g generalizing ss rem with
  | nil => exact secondPass_nil _ _ _
  | cons x gs ih =>
    cases ss with
    | nil => rfl
    | cons s rest => simp [secondPass, ih]

/-- C1: for every guess and secret word of equal length, `evaluate_guess`
returns exactly the statuses of the spec's two-pass rule (first pass marks
exact matches `correct` and counts the other secret letters; second pass,
left to right over non-correct positions, marks `present` while the counter
for the guessed letter is positive, else `absent`); in particular a guess
equal to the secret word yields all `correct`. -/
theorem evaluate_guess_matches_two_pass_spec (guess word : List Char)
    (h : guess.length = word.length) :
    evaluate_guess guess word = specEvaluate guess word ∧
      (guess = word →
        evaluate_guess guess word = List.replicate word.length Status.correct) := by
  refine ⟨evaluate_eq_spec guess word h, ?_⟩
  intro hgw
  subst hgw
  unfold evaluate_guess
  rw [firstPass_self]
  exact secondPass_self _ _ _

theorem evaluate_guess_matches_two_pass_spec_witness :
    (['C','R','A','T','E'] : List Char).length = (['C','R','A','T','E'] : List Char).length ∧
    (evaluate_guess ['C','R','A','T','E'] ['C','R','A','T','E']
        = specEvaluate ['C','R','A','T','E'] ['C','R','A','T','E'] ∧
      ((['C','R','A','T','E'] : List Char) = ['C','R','A','T','E'] →
        evaluate_guess ['C','R','A','T','E'] ['C','R','A','T','E']
          = List.replicate (['C','R','A','T','E'] : List Char).length Status.correct)) :=
  ⟨rfl, evaluate_guess_matches_two_pass_spec _ _ rfl⟩

/-- C8 counterexample: evaluating guess `ERASE` against secret `SPEED` does
NOT mark exactly one of the two `E` letters of the guess (positions 0 and 4)
`present` with the other `absent`: the code marks both `present`, because
`SPEED` contains two `E`s and neither is positionally matched, so the
remaining counter for `E` after the first pass is 2. -/
theorem erase_speed_not_one_e_present_one_e_absent :
    ¬ (((evaluate_guess ['E','R','A','S','E'] ['S','P','E','E','D']).getD 0 Status.absent
            = Status.present ∧
        (evaluate_guess ['E','R','A','S','E'] ['S','P','E','E','D']).getD 4 Status.absent
            = Status.absent) ∨
       ((evaluate_guess ['E','R','A','S','E'] ['S','P','E','E','D']).getD 0 Status.absent
            = Status.absent ∧
        (evaluate_guess ['E','R','A','S','E'] ['S','P','E','E','D']).getD 4 Status.absent
            = Status.present)) := by
  decide

/-- C8 amended: evaluating guess `ERASE` against secret `SPEED` marks both
`E` letters of the guess `present` (the secret contains two non-positionally
matched `E`s), with the full status array derived from the two-pass rule
being `[present, absent, absent, present, present]`. -/
theorem erase_speed_evaluation :
    evaluate_guess ['E','R','A','S','E'] ['S','P','E','E','D']
      = [Status.present, Status.absent, Status.absent, Status.present, Status.present] := by
  decide

theorem secondPass_length (g w : List Char) (ss : List Status) (rem : Char → Nat) :
    (secondPass g w ss rem).length = ss.length := by
  induction g generalizing w ss rem with
  | nil => rw [secondPass_nil]
  | cons x gs ih =>
    cases w with
    | nil => rfl
    | cons y ws =>
      cases ss with
      | nil => rfl
      | cons s rest =>
        by_cases hxy : x = y
        · simp [secondPass, hxy, ih]
        · by_cases hrem : 0 < rem x <;> simp [secondPass, hxy, hrem, ih]

theorem evaluate_guess_length (g w : List Char) :
    (evaluate_guess g w).length = w.length := by
  show (secondPass g w (firstPass g w fun _ => 0).1 (firstPass g w fun _ => 0).2).length
      = w.length
  rw [secondPass_length, firstPass_fst]
  simp [List.length_zip]
  omega

theorem secondPass_getD_ge (g w : List Char) (ss : List Status) (rem : Char → Nat)
    (i : Nat) (hi : g.length ≤ i) :
    (secondPass g w ss rem).getD i Status.absent = ss.getD i Status.absent := by
  induction g generalizing w ss rem i with
  | nil => rw [secondPass_nil]
  | cons x gs ih =>
    cases w with
    | nil => rfl
    | cons y ws =>
      cases ss with
      | nil => rfl
      | cons s rest =>
        cases i with
        | zero => simp at hi
        | succ j =>
          have hj : gs.length ≤ j := by simpa using hi
          simp only [secondPass]
          by_cases hxy : x = y
          · rw [if_pos hxy, List.getD_cons_succ, List.getD_cons_succ, ih _ _ _ _ hj]
          · rw [if_neg hxy]
            by_cases hrem : 0 < rem x
            · rw [if_pos hrem, List.getD_cons_succ, List.getD_cons_succ, ih _ _ _ _ hj]
            · rw [if_neg hrem, List.getD_cons_succ, List.getD_cons_succ, ih _ _ _ _ hj]

theorem getD_replicate_absent (k i : Nat) :
    (List.replicate k Status.absent).getD i Status.absent = Status.absent := by
  induction k generalizing i with
  | zero => rfl
  | succ n ih =>
    cases i with
    | zero => rfl
    | succ j =>
      simp only [List.replicate_succ, List.getD_cons_succ]
      exact ih j

theorem firstPass_getD_ge (g w : List Char) (rem : Char → Nat) (i : Nat)
    (hi : g.length ≤ i) :
    ((firstPass g w rem).1).getD i Status.absent = Status.absent := by
  rw [firstPass_fst]
  rw [List.getD_append_right]
  · exact getD_replicate_absent _ _
  · simp [List.length_zip]
    omega

theorem firstPass_take (g w : List Char) (rem : Char → Nat) :
    firstPass (g.take w.length) w rem = firstPass g w rem := by
  induction g generalizing w rem with
  | nil => simp
  | cons x gs ih =>
    cases w with
    | nil => rfl
    | cons y ws =>
      by_cases hxy : x = y <;>
        simp [firstPass, List.take_succ_cons, hxy, ih]

theorem secondPass_take (g w : List Char) (ss : List Status) (rem : Char → Nat) :
    secondPass (g.take w.length) w ss rem = secondPass g w ss rem := by
  induction g generalizing w ss rem with
  | nil => simp
  | cons x gs ih =>
    cases w with
    | nil =>
      rw [List.length_nil, List.take_zero, secondPass_nil]
      rfl
    | cons y ws =>
      cases ss with
      | nil =>
        rw [List.length_cons, List.take_succ_cons]
        rfl
      | cons s rest =>
        rw [List.length_cons, List.take_succ_cons]
        by_cases hxy : x = y
        · simp [secondPass, hxy, ih]
        · by_cases hrem : 0 < rem x <;> simp [secondPass, hxy, hrem, ih]

/-- C10: `evaluate_guess` is total on every pair of character lists: it
always returns exactly `word.length` statuses; every position at index at
least `guess.length` is `absent` (the zip in both passes never reaches it);
and guess characters beyond `word.length` are ignored (evaluating the
truncated guess gives the same result). -/
theorem evaluate_guess_total (guess word : List Char) :
    (evaluate_guess guess word).length = word.length ∧
    (∀ i, guess.length ≤ i →
      (evaluate_guess guess word).getD i Status.absent = Status.absent) ∧
    evaluate_guess guess word = evaluate_guess (guess.take word.length) word := by
  refine ⟨evaluate_guess_length guess word, ?_, ?_⟩
  · intro i hi
    show (secondPass guess word (firstPass guess word fun _ => 0).1
        (firstPass guess word fun _ => 0).2).getD i Status.absent = Status.absent
    rw [secondPass_getD_ge _ _ _ _ _ hi]
    exact firstPass_getD_ge _ _ _ _ hi
  · show secondPass guess word (firstPass guess word fun _ => 0).1
        (firstPass guess word fun _ => 0).2
      = secondPass (guess.take word.length) word
        (firstPass (guess.take word.length) word fun _ => 0).1
        (firstPass (guess.take word.length) word fun _ => 0).2
    rw [firstPass_take, secondPass_take]

theorem evaluate_guess_total_witness :
    (evaluate_guess ['A','B'] ['B','C','D']).length = (['B','C','D'] : List Char).length ∧
    (∀ i, (['A','B'] : List Char).length ≤ i →
      (evaluate_guess ['A','B'] ['B','C','D']).getD i Status.absent = Status.absent) ∧
    evaluate_guess ['A','B'] ['B','C','D']
      = evaluate_guess (['A','B'].take (['B','C','D'] : List Char).length) ['B','C','D'] :=
  evaluate_guess_total ['A','B'] ['B','C','D']

theorem hintRank_cons (k : PlayerKeyboardStatus) (rest : List PlayerKeyboardStatus)
    (c : Char) :
    hintRank (k :: rest) c
      = if k.letter == c then statusPriority k.status else hintRank rest c := by
  by_cases h : (k.letter == c) = true
  · simp [hintRank, List.find?_cons, h]
  · have h' : (k.letter == c) = false := by simpa using h
    simp [hintRank, List.find?_cons, h']

theorem hintRank_upsertOne_le (ks : List PlayerKeyboardStatus) (l : Char) (s : Status)
    (c : Char) : hintRank ks c ≤ hintRank (upsertOne ks l s) c := by
  induction ks with
  | nil => simp [hintRank, upsertOne]
  | cons k rest ih =>
    by_cases hkl : k.letter = l
    · rw [upsertOne, if_pos hkl]
      by_cases hlt : statusPriority k.status < statusPriority s
      · rw [if_pos hlt, hintRank_cons, hintRank_cons]
        by_cases hkc : (k.letter == c) = true
        · simp only [hkc, if_true]
          exact Nat.le_of_lt hlt
        · have hkc' : (k.letter == c) = false := by simpa using hkc
          simp [hkc']
      · rw [if_neg hlt]
    · rw [upsertOne, if_neg hkl, hintRank_cons, hintRank_cons]
      by_cases hkc : (k.letter == c) = true
      · simp [hkc]
      · have hkc' : (k.letter == c) = false := by simpa using hkc
        simp only [hkc', Bool.false_eq_true, if_false]
        exact ih

theorem hintRank_upsert_le (pairs : List (Char × Status))
    (ks : List PlayerKeyboardStatus) (c : Char) :
    hintRank ks c ≤ hintRank (upsert_keyboard_statuses ks pairs) c := by
  induction pairs generalizing ks with
  | nil => exact Nat.le_refl _
  | cons p rest ih =>
    exact Nat.le_trans (hintRank_upsertOne_le ks p.1.toUpper p.2 c)
      (ih (upsertOne ks p.1.toUpper p.2))

/-! ### Store lookup lemmas -/

theorem lookupPlayer_uid (store : List PlayerState) (uid : String) (r : PlayerState)
    (h : lookupPlayer store uid = some r) : r.uid = uid := by
  have := List.find?_some h
  simpa using this

theorem lookupPlayer_replace_self (store : List PlayerState) (uid : String)
    (r r2 : PlayerState) (h : lookupPlayer store uid = some r) (h2 : r2.uid = uid) :
    lookupPlayer (replacePlayer store uid r2) uid = some r2 := by
  induction store with
  | nil => simp [lookupPlayer] at h
  | cons p rest ih =>
    by_cases hp : p.uid = uid
    · have hp' : (p.uid == uid) = true := by simpa using hp
      simp [replacePlayer, hp', lookupPlayer, List.find?_cons, h2]
    · have hp' : (p.uid == uid) = false := by simpa using hp
      simp only [lookupPlayer, List.find?_cons, hp', cond_false] at h
      simp only [replacePlayer, hp', Bool.false_eq_true, if_false, lookupPlayer,
        List.find?_cons, cond_false]
      exact ih h

theorem lookupPlayer_replace_ne (store : List PlayerState) (uid u : String)
    (r2 : PlayerState) (h2 : r2.uid = uid) (hu : u ≠ uid) :
    lookupPlayer (replacePlayer store uid r2) u = lookupPlayer store u := by
  induction store with
  | nil => rfl
  | cons p rest ih =>
    by_cases hp : p.uid = uid
    · have hp' : (p.uid == uid) = true := by simpa using hp
      have hpu : (p.uid == u) = false := by
        have hne : p.uid ≠ u := fun he => hu (he.symm.trans hp)
        simpa using hne
      have hru : (r2.uid == u) = false := by
        have hne : r2.uid ≠ u := fun he => hu (he.symm.trans h2)
        simpa using hne
      simp [replacePlayer, hp', lookupPlayer, List.find?_cons, hpu, hru]
    · have hp' : (p.uid == uid) = false := by simpa using hp
      by_cases hpu : p.uid = u
      · have hpu' : (p.uid == u) = true := by simpa using hpu
        simp [replacePlayer, hp', lookupPlayer, List.find?_cons, hpu']
      · have hpu' : (p.uid == u) = false := by simpa using hpu
        simpa [replacePlayer, hp', lookupPlayer, List.find?_cons, hpu'] using ih

theorem lookupPlayer_append_ne (store : List PlayerState) (r : PlayerState)
    (u : String) (hru : r.uid ≠ u) :
    lookupPlayer (store ++ [r]) u = lookupPlayer store u := by
  induction store with
  | nil =>
    have hru' : (r.uid == u) = false := by simpa using hru
    simp [lookupPlayer, List.find?_cons, hru']
  | cons p rest ih =>
    by_cases hpu : p.uid = u
    · have hpu' : (p.uid == u) = true := by simpa using hpu
      simp [lookupPlayer, List.find?_cons, hpu']
    · have hpu' : (p.uid == u) = false := by simpa using hpu
      simpa [lookupPlayer, List.find?_cons, hpu'] using ih

theorem lookupPlayer_append_self (store : List PlayerState) (r : PlayerState)
    (uid : String) (h : lookupPlayer store uid = none) (hr : r.uid = uid) :
    lookupPlayer (store ++ [r]) uid = some r := by
  induction store with
  | nil =>
    have hr' : (r.uid == uid) = true := by simpa using hr
    simp [lookupPlayer, List.find?_cons, hr']
  | cons p rest ih =>
    by_cases hpu : p.uid = uid
    · have hpu' : (p.uid == uid) = true := by simpa using hpu
      simp [lookupPlayer, List.find?_cons, hpu'] at h
    · have hpu' : (p.uid == uid) = false := by simpa using hpu
      simp only [lookupPlayer, List.find?_cons, hpu', cond_false] at h
      simpa [lookupPlayer, List.find?_cons, hpu'] using ih h

theorem get_or_create_ok_cases (store : List PlayerState) (uid name : String)
    (now : Nat) (store1 : List PlayerState) (record : PlayerState)
    (h : get_or_create_player_state store uid name now = Except.ok (store1, record)) :
    record.uid = uid ∧
    ((∃ r, lookupPlayer store uid = some r ∧
        record.keyboard_statuses = r.keyboard_statuses ∧
        record.guesses = r.guesses ∧ record.finish_time = r.finish_time ∧
        (store1 = store ∨ store1 = replacePlayer store uid record)) ∨
      (lookupPlayer store uid = none ∧ record.keyboard_statuses = [] ∧
        record.guesses = [] ∧ record.finish_time = none ∧
        store1 = store ++ [record])) := by
  unfold get_or_create_player_state at h
  cases hlook : lookupPlayer store uid with
  | some r =>
    rw [hlook] at h
    dsimp only at h
    by_cases hname : r.name ≠ name
    · rw [if_pos hname] at h
      by_cases hconf : has_name_conflict store uid name = true
      · rw [if_pos hconf] at h
        exact absurd h (by simp)
      · rw [if_neg hconf] at h
        have hinj := Except.ok.inj h
        have hstore : store1 = replacePlayer store uid { r with name := name } :=
          (congrArg Prod.fst hinj).symm
        have hrec : record = { r with name := name } :=
          (congrArg Prod.snd hinj).symm
        subst hrec
        refine ⟨lookupPlayer_uid store uid r hlook, Or.inl ⟨r, rfl, rfl, rfl, rfl, ?_⟩⟩
        exact Or.inr hstore
    · rw [if_neg hname] at h
      have hinj := Except.ok.inj h
      have hstore : store1 = store := (congrArg Prod.fst hinj).symm
      have hrec : record = r := (congrArg Prod.snd hinj).symm
      subst hrec
      exact ⟨lookupPlayer_uid store uid record hlook,
        Or.inl ⟨record, rfl, rfl, rfl, rfl, Or.inl hstore⟩⟩
  | none =>
    rw [hlook] at h
    dsimp only at h
    by_cases hconf : has_name_conflict store uid name = true
    · rw [if_pos hconf] at h
      exact absurd h (by simp)
    · rw [if_neg hconf] at h
      have hinj := Except.ok.inj h
      have hstore := (congrArg Prod.fst hinj).symm
      have hrec := (congrArg Prod.snd hinj).symm
      subst hrec
      exact ⟨rfl, Or.inr ⟨rfl, rfl, rfl, rfl, hstore⟩⟩

theorem apply_ok_cases (game : Game) (store : List PlayerState) (uid name : String)
    (guess : List Char) (now : Nat) (store' : List PlayerState) (rec2 : PlayerState)
    (h : apply_guess_for_player game store uid name guess now
        = Except.ok (store', rec2)) :
    ∃ record store1,
      get_or_create_player_state store uid name now = Except.ok (store1, record) ∧
      store' = replacePlayer store1 uid rec2 ∧
      rec2.uid = record.uid ∧
      rec2.keyboard_statuses
        = upsert_keyboard_statuses record.keyboard_statuses
            (guess.zip (evaluate_guess guess game.word)) := by
  unfold apply_guess_for_player at h
  cases hg : get_or_create_player_state store uid name now with
  | error e => rw [hg] at h; exact absurd h (by simp)
  | ok p =>
    obtain ⟨store1, record⟩ := p
    rw [hg] at h
    dsimp only at h
    refine ⟨record, store1, rfl, ?_⟩
    cases hv : validate_guess_sequence record.guesses game.max_guesses with
    | error e => rw [hv] at h; exact absurd h (by simp)
    | ok u =>
      rw [hv] at h
      cases hf : record.finish_time with
      | some t => rw [hf] at h; exact absurd h (by simp)
      | none =>
        rw [hf] at h
        by_cases hmax : game.max_guesses < record.guesses.length + 1
        · rw [if_pos hmax] at h
          exact absurd h (by simp)
        · rw [if_neg hmax] at h
          simp only at h
          have hinj := Except.ok.inj h
          have hstore := (congrArg Prod.fst hinj)
          have hrec := (congrArg Prod.snd hinj)
          simp only at hstore hrec
          refine ⟨by rw [← hstore, ← hrec], ?_, ?_⟩
          · rw [← hrec]
            by_cases hw : guess = game.word
            · rw [if_pos hw]
            · rw [if_neg hw]
              by_cases hm2 : game.max_guesses ≤ record.guesses.length + 1
              · rw [if_pos hm2]
              · rw [if_neg hm2]
          · rw [← hrec]
            by_cases hw : guess = game.word
            · rw [if_pos hw]
            · rw [if_neg hw]
              by_cases hm2 : game.max_guesses ≤ record.guesses.length + 1
              · rw [if_pos hm2]
              · rw [if_neg hm2]

theorem storedHintRank_step_le (game : Game) (store : List PlayerState)
    (uid name : String) (guess : List Char) (now : Nat) (u : String) (c : Char) :
    storedHintRank store u c
      ≤ storedHintRank (storeAfterGuess game store uid name guess now) u c := by
  unfold storeAfterGuess
  cases happ : apply_guess_for_player game store uid name guess now with
  | error e => exact Nat.le_refl _
  | ok p =>
    obtain ⟨store', rec2⟩ := p
    dsimp only
    obtain ⟨record, store1, hg, hstore', hruid, hkb⟩ :=
      apply_ok_cases game store uid name guess now store' rec2 happ
    obtain ⟨hrecuid, hcases⟩ := get_or_create_ok_cases store uid name now store1 record hg
    have hrec2uid : rec2.uid = uid := hruid.trans hrecuid
    by_cases hu : u = uid
    · subst hu
      cases hlook : lookupPlayer store u with
      | none =>
        unfold storedHintRank
        rw [hlook]
        dsimp only
        exact Nat.zero_le _
      | some r =>
        rcases hcases with ⟨r', hlook', hkb', _, _, hst1⟩ | ⟨hlooknone, _, _, _, _⟩
        · have hrr : r' = r := by
            rw [hlook] at hlook'
            exact (Option.some.inj hlook').symm
          subst hrr
          have hlookafter : lookupPlayer store' u = some rec2 := by
            rcases hst1 with hst1 | hst1
            · rw [hstore', hst1]
              exact lookupPlayer_replace_self store u r' rec2 hlook hrec2uid
            · rw [hstore', hst1]
              have hmid : lookupPlayer (replacePlayer store u record) u = some record :=
                lookupPlayer_replace_self store u r' record hlook hrecuid
              exact lookupPlayer_replace_self _ u record rec2 hmid hrec2uid
          unfold storedHintRank
          rw [hlook, hlookafter]
          dsimp only
          rw [hkb, hkb']
          exact hintRank_upsert_le _ _ _
        · rw [hlook] at hlooknone
          cases hlooknone
    · have hafter : lookupPlayer store' u = lookupPlayer store u := by
        have h1 : lookupPlayer store' u = lookupPlayer store1 u := by
          rw [hstore']
          exact lookupPlayer_replace_ne store1 uid u rec2 hrec2uid hu
        rcases hcases with ⟨r', _, _, _, _, hst1⟩ | ⟨_, _, _, _, hst1⟩
        · rcases hst1 with hst1 | hst1
          · rw [h1, hst1]
          · rw [h1, hst1]
            exact lookupPlayer_replace_ne store uid u record hrecuid hu
        · rw [h1, hst1]
          exact lookupPlayer_append_ne store record u
            (fun he => hu (he.symm.trans hrecuid))
      unfold storedHintRank
      rw [hafter]

/-- C6: the keyboard-hint merge is monotonic.  Across any sequence of guess
requests applied to the store, the priority (`absent` = 1 < `present` = 2 <
`correct` = 3) of the hint stored for any player's letter never decreases;
in particular once a letter's hint is `correct` (the maximal priority 3) no
later guess changes it to `present` or `absent`. -/
theorem keyboard_hints_monotonic (game : Game) (store : List PlayerState)
    (reqs : List GuessRequest) (u : String) (c : Char) :
    storedHintRank store u c ≤ storedHintRank (runGuesses game store reqs) u c := by
  induction reqs generalizing store with
  | nil => exact Nat.le_refl _
  | cons q rest ih =>
    exact Nat.le_trans (storedHintRank_step_le game store q.uid q.name q.guess q.now u c)
      (ih _)

/-! ### Guess-number contiguity -/

theorem validate_ok_iff (gs : List PlayerGuess) (max_guesses : Nat) :
    validate_guess_sequence gs max_guesses = Except.ok ()
      ↔ gs.length ≤ max_guesses ∧ contiguousGuessNumbers gs := by
  unfold validate_guess_sequence
  have hlen : (List.insertionSort (· ≤ ·) (gs.map fun g => g.guess_number)).length
      = gs.length := by
    rw [List.length_insertionSort, List.length_map]
  constructor
  · intro h
    by_cases h1 : max_guesses
        < (List.insertionSort (· ≤ ·) (gs.map fun g => g.guess_number)).length
    · rw [if_pos h1] at h
      exact absurd h (by simp)
    · rw [if_neg h1] at h
      refine ⟨by omega, ?_⟩
      by_cases h2 : List.insertionSort (· ≤ ·) (gs.map fun g => g.guess_number) ≠ [] ∧
          List.insertionSort (· ≤ ·) (gs.map fun g => g.guess_number)
            ≠ List.range' 1 (List.insertionSort (· ≤ ·)
                (gs.map fun g => g.guess_number)).length
      · rw [if_pos h2] at h
        exact absurd h (by simp)
      · rw [not_and_or, not_not, not_not] at h2
        unfold contiguousGuessNumbers
        rcases h2 with h2 | h2
        · have hgs : gs.length = 0 := by
            rw [← hlen, h2]
            rfl
          rw [h2, hgs]
          rfl
        · rw [h2, hlen]
  · rintro ⟨h1, h2⟩
    unfold contiguousGuessNumbers at h2
    have hne : ¬ (List.insertionSort (· ≤ ·) (gs.map fun g => g.guess_number) ≠ [] ∧
        List.insertionSort (· ≤ ·) (gs.map fun g => g.guess_number)
          ≠ List.range' 1 (List.insertionSort (· ≤ ·)
              (gs.map fun g => g.guess_number)).length) := by
      rw [not_and_or, not_not, not_not]
      right
      rw [h2]
      simp [List.length_range']
    rw [if_neg (by omega), if_neg hne]

theorem contiguous_snoc (gs : List PlayerGuess) (g : PlayerGuess)
    (h : contiguousGuessNumbers gs) (hn : g.guess_number = gs.length + 1) :
    contiguousGuessNumbers (gs ++ [g]) := by
  unfold contiguousGuessNumbers at *
  have hperm : List.Perm ((gs ++ [g]).map (fun x => x.guess_number))
      (List.range' 1 (gs.length + 1)) := by
    rw [List.map_append, List.map_singleton, hn]
    have h1 : List.Perm (gs.map (fun x => x.guess_number)) (List.range' 1 gs.length) := by
      have hps := List.perm_insertionSort (· ≤ ·) (gs.map fun x => x.guess_number)
      rw [h] at hps
      exact hps.symm
    have h2 : List.range' 1 (gs.length + 1)
        = List.range' 1 gs.length ++ [1 + gs.length] := List.range'_1_concat 1 gs.length
    have h3 : ([gs.length + 1] : List Nat) = [1 + gs.length] := by
      rw [Nat.add_comm]
    rw [h2, h3]
    exact h1.append_right _
  have hs1 : List.Sorted (· ≤ ·)
      (List.insertionSort (· ≤ ·) ((gs ++ [g]).map fun x => x.guess_number)) :=
    List.sorted_insertionSort _ _
  have hs2 : List.Sorted (· ≤ ·) (List.range' 1 ((gs ++ [g]).length)) :=
    List.pairwise_le_range' 1 _
  have hp : List.Perm
      (List.insertionSort (· ≤ ·) ((gs ++ [g]).map fun x => x.guess_number))
      (List.range' 1 ((gs ++ [g]).length)) := by
    have hl : (gs ++ [g]).length = gs.length + 1 := by simp
    rw [hl]
    exact (List.perm_insertionSort _ _).trans hperm
  exact List.eq_of_perm_of_sorted hp hs1 hs2

/-! ### Dissecting a successful guess application -/

theorem apply_ok_dissect (game : Game) (store : List PlayerState) (uid name : String)
    (guess : List Char) (now : Nat) (store' : List PlayerState) (rec2 : PlayerState)
    (h : apply_guess_for_player game store uid name guess now
        = Except.ok (store', rec2)) :
    ∃ record store1,
      get_or_create_player_state store uid name now = Except.ok (store1, record) ∧
      validate_guess_sequence record.guesses game.max_guesses = Except.ok () ∧
      record.finish_time = none ∧
      record.guesses.length + 1 ≤ game.max_guesses ∧
      store' = replacePlayer store1 uid rec2 ∧
      rec2.uid = record.uid ∧
      rec2.guesses = record.guesses
        ++ [⟨record.guesses.length + 1, guess, evaluate_guess guess game.word⟩] ∧
      ((guess = game.word ∧ rec2.is_winner = true ∧ rec2.finish_time = some now) ∨
       (guess ≠ game.word ∧ game.max_guesses ≤ record.guesses.length + 1 ∧
          rec2.is_winner = false ∧ rec2.finish_time = some now) ∨
       (guess ≠ game.word ∧ record.guesses.length + 1 < game.max_guesses ∧
          rec2.is_winner = record.is_winner ∧ rec2.finish_time = none)) := by
  unfold apply_guess_for_player at h
  cases hg : get_or_create_player_state store uid name now with
  | error e => rw [hg] at h; exact absurd h (by simp)
  | ok p =>
    obtain ⟨store1, record⟩ := p
    rw [hg] at h
    dsimp only at h
    refine ⟨record, store1, rfl, ?_⟩
    cases hv : validate_guess_sequence record.guesses game.max_guesses with
    | error e => rw [hv] at h; exact absurd h (by simp)
    | ok u =>
      obtain ⟨⟩ := u
      rw [hv] at h
      refine ⟨rfl, ?_⟩
      cases hf : record.finish_time with
      | some t => rw [hf] at h; exact absurd h (by simp)
      | none =>
        rw [hf] at h
        refine ⟨rfl, ?_⟩
        by_cases hmax : game.max_guesses < record.guesses.length + 1
        · rw [if_pos hmax] at h
          exact absurd h (by simp)
        · rw [if_neg hmax] at h
          simp only at h
          have hinj := Except.ok.inj h
          have hstore := (congrArg Prod.fst hinj)
          have hrec := (congrArg Prod.snd hinj)
          simp only at hstore hrec
          refine ⟨by omega, by rw [← hstore, ← hrec], ?_, ?_, ?_⟩
          · rw [← hrec]
            by_cases hw : guess = game.word
            · rw [if_pos hw]
            · rw [if_neg hw]
              by_cases hm2 : game.max_guesses ≤ record.guesses.length + 1
              · rw [if_pos hm2]
              · rw [if_neg hm2]
          · rw [← hrec]
            by_cases hw : guess = game.word
            · rw [if_pos hw]
            · rw [if_neg hw]
              by_cases hm2 : game.max_guesses ≤ record.guesses.length + 1
              · rw [if_pos hm2]
              · rw [if_neg hm2]
          · by_cases hw : guess = game.word
            · exact Or.inl ⟨hw, by rw [← hrec, if_pos hw],
                by rw [← hrec, if_pos hw]⟩
            · by_cases hm2 : game.max_guesses ≤ record.guesses.length + 1
              · exact Or.inr (Or.inl ⟨hw, hm2, by rw [← hrec, if_neg hw, if_pos hm2],
                  by rw [← hrec, if_neg hw, if_pos hm2]⟩)
              · exact Or.inr (Or.inr ⟨hw, by omega,
                  by rw [← hrec, if_neg hw, if_neg hm2],
                  by rw [← hrec, if_neg hw, if_neg hm2]⟩)

/-- `get_or_create_player_state` called with the stored record's own name
returns the store and record unchanged. -/
theorem get_or_create_self (store : List PlayerState) (uid : String) (r : PlayerState)
    (now : Nat) (hlook : lookupPlayer store uid = some r) :
    get_or_create_player_state store uid r.name now = Except.ok (store, r) := by
  unfold get_or_create_player_state
  rw [hlook]
  dsimp only
  rw [if_neg (by simp)]

theorem finished_no_ok (game : Game) (store : List PlayerState) (uid : String)
    (r : PlayerState) (t : Nat) (hlook : lookupPlayer store uid = some r)
    (hfin : r.finish_time = some t) : acceptsNoGuess game store uid := by
  intro name guess now store' rec2 h
  obtain ⟨record, store1, hg, _, hfn, _⟩ :=
    apply_ok_dissect game store uid name guess now store' rec2 h
  obtain ⟨_, hcases⟩ := get_or_create_ok_cases store uid name now store1 record hg
  rcases hcases with ⟨r2, hlook2, _, _, hft, _⟩ | ⟨hnone, _⟩
  · rw [hlook] at hlook2
    have : r2 = r := (Option.some.inj hlook2).symm
    subst this
    rw [hft, hfin] at hfn
    cases hfn
  · rw [hlook] at hnone
    cases hnone

theorem apply_ok_exists (game : Game) (store : List PlayerState) (uid : String)
    (r : PlayerState) (guess : List Char) (now : Nat)
    (hlook : lookupPlayer store uid = some r)
    (hcont : contiguousGuessNumbers r.guesses)
    (hfin : r.finish_time = none)
    (hcnt : r.guesses.length < game.max_guesses) :
    ∃ p, apply_guess_for_player game store uid r.name guess now = Except.ok p := by
  unfold apply_guess_for_player
  rw [get_or_create_self store uid r now hlook]
  dsimp only
  rw [(validate_ok_iff r.guesses game.max_guesses).mpr ⟨Nat.le_of_lt hcnt, hcont⟩]
  dsimp only
  rw [hfin]
  dsimp only
  rw [if_neg (by omega)]
  exact ⟨_, rfl⟩

/-- C7: a successful `apply_guess_for_player` on a stored session appends
exactly the guess numbered `len(guesses) + 1`, so the stored guess numbers
remain the contiguous range `1..len(guesses)` with
`len(guesses) ≤ max_guesses`. -/
theorem apply_guess_contiguous_invariant (game : Game) (store : List PlayerState)
    (uid name : String) (guess : List Char) (now : Nat)
    (r : PlayerState) (store' : List PlayerState) (rec2 : PlayerState)
    (hlook : lookupPlayer store uid = some r)
    (h : apply_guess_for_player game store uid name guess now
        = Except.ok (store', rec2)) :
    rec2.guesses = r.guesses
        ++ [⟨r.guesses.length + 1, guess, evaluate_guess guess game.word⟩] ∧
    contiguousGuessNumbers rec2.guesses ∧
    rec2.guesses.length ≤ game.max_guesses := by
  obtain ⟨record, store1, hg, hv, hfn, hmax, hstore', huid, hguesses, hbranch⟩ :=
    apply_ok_dissect game store uid name guess now store' rec2 h
  obtain ⟨_, hcases⟩ := get_or_create_ok_cases store uid name now store1 record hg
  have hrg : record.guesses = r.guesses := by
    rcases hcases with ⟨r2, hlook2, _, hg2, _, _⟩ | ⟨hnone, _⟩
    · rw [hlook] at hlook2
      have hr2 : r2 = r := (Option.some.inj hlook2).symm
      subst hr2
      exact hg2
    · rw [hlook] at hnone
      cases hnone
  have hcont : contiguousGuessNumbers record.guesses :=
    ((validate_ok_iff record.guesses game.max_guesses).mp hv).2
  rw [hrg] at hguesses hcont hmax
  refine ⟨hguesses, ?_, ?_⟩
  · rw [hguesses]
    exact contiguous_snoc r.guesses _ hcont rfl
  · rw [hguesses]
    simp only [List.length_append, List.length_singleton]
    omega

/-- C2: on an `Active` stored session with a contiguous guess history and
room for another guess, `apply_guess_for_player` transitions the session to
`Won` (`is_winner` true, `finish_time` set) for a guess equal to the secret
word, to `Lost` (`is_winner` false, `finish_time` set) for a non-winning
guess that brings the count to `max_guesses`, and leaves it `Active`
(`finish_time` still unset) for any other non-winning guess; in the two
terminal outcomes no further guess request for this player ever succeeds. -/
theorem apply_guess_session_transitions (game : Game) (store : List PlayerState)
    (uid : String) (r : PlayerState) (guess : List Char) (now : Nat)
    (hlook : lookupPlayer store uid = some r)
    (hcont : contiguousGuessNumbers r.guesses)
    (hfin : r.finish_time = none)
    (hcnt : r.guesses.length < game.max_guesses) :
    (guess = game.word →
      ∃ store' rec2, apply_guess_for_player game store uid r.name guess now
          = Except.ok (store', rec2) ∧
        rec2.is_winner = true ∧ rec2.finish_time = some now ∧
        acceptsNoGuess game store' uid) ∧
    (guess ≠ game.word → r.guesses.length + 1 = game.max_guesses →
      ∃ store' rec2, apply_guess_for_player game store uid r.name guess now
          = Except.ok (store', rec2) ∧
        rec2.is_winner = false ∧ rec2.finish_time = some now ∧
        acceptsNoGuess game store' uid) ∧
    (guess ≠ game.word → r.guesses.length + 1 < game.max_guesses →
      ∃ store' rec2, apply_guess_for_player game store uid r.name guess now
          = Except.ok (store', rec2) ∧
        rec2.finish_time = none) := by
  obtain ⟨⟨store', rec2⟩, happ⟩ :=
    apply_ok_exists game store uid r guess now hlook hcont hfin hcnt
  obtain ⟨record, store1, hg, hv, hfn, hmax, hstore', huid, hguesses, hbranch⟩ :=
    apply_ok_dissect game store uid r.name guess now store' rec2 happ
  have hgself := get_or_create_self store uid r now hlook
  rw [hgself] at hg
  have hinj := Except.ok.inj hg
  injection hinj with hst1 hrecr
  subst hst1
  subst hrecr
  have hrec2uid : rec2.uid = uid := huid.trans (lookupPlayer_uid store uid r hlook)
  have hlookafter : lookupPlayer store' uid = some rec2 := by
    rw [hstore']
    exact lookupPlayer_replace_self store uid r rec2 hlook hrec2uid
  refine ⟨?_, ?_, ?_⟩
  · intro hw
    rcases hbranch with ⟨_, hwin, hft⟩ | ⟨hnw, _⟩ | ⟨hnw, _⟩
    · exact ⟨store', rec2, happ, hwin, hft,
        finished_no_ok game store' uid rec2 now hlookafter hft⟩
    · exact absurd hw hnw
    · exact absurd hw hnw
  · intro hw heq
    rcases hbranch with ⟨hw', _⟩ | ⟨_, _, hwin, hft⟩ | ⟨_, hlt, _⟩
    · exact absurd hw' hw
    · exact ⟨store', rec2, happ, hwin, hft,
        finished_no_ok game store' uid rec2 now hlookafter hft⟩
    · omega
  · intro hw hlt
    rcases hbranch with ⟨hw', _⟩ | ⟨_, hge, _⟩ | ⟨_, _, _, hft⟩
    · exact absurd hw' hw
    · omega
    · exact ⟨store', rec2, happ, hft⟩

/-- C3 counterexample: a session whose `finish_time` is already set does NOT
always fail with `InvalidGuessSequenceError`: when the request carries a new
name that collides with another player's name, `get_or_create_player_state`
raises `PlayerStateConflictError` before the terminal-state check is
reached. -/
theorem finished_session_conflict_not_sequence_error :
    apply_guess_for_player ⟨"g1", ['C','A','T'], 6⟩
      [⟨"u1", "ALICE", false, 0, some 9, [], []⟩,
       ⟨"u2", "BOB", false, 0, none, [], []⟩]
      "u1" "BOB" ['C','A','T'] 10
      = Except.error (StoreError.playerStateConflict (conflictMessage "BOB")) := by
  rfl

/-- C3 amended: on a session whose `finish_time` is set,
`apply_guess_for_player` always fails (it never returns a successful
result) and the persisted store is unchanged; when the request's name is
the stored name and the stored guess numbers are valid, the error is
exactly `InvalidGuessSequenceError("Game is already over for this
player.")` — but a conflicting new name yields `PlayerStateConflictError`
instead. -/
theorem finished_session_rejects_guess (game : Game) (store : List PlayerState)
    (uid name : String) (guess : List Char) (now : Nat) (r : PlayerState) (t : Nat)
    (hlook : lookupPlayer store uid = some r)
    (hfin : r.finish_time = some t) :
    (∃ e, apply_guess_for_player game store uid name guess now = Except.error e) ∧
    storeAfterGuess game store uid name guess now = store ∧
    (name = r.name → contiguousGuessNumbers r.guesses →
      r.guesses.length ≤ game.max_guesses →
      apply_guess_for_player game store uid name guess now
        = Except.error
            (StoreError.invalidGuessSequence "Game is already over for this player.")) := by
  have herr : ∃ e, apply_guess_for_player game store uid name guess now
      = Except.error e := by
    cases happ : apply_guess_for_player game store uid name guess now with
    | error e => exact ⟨e, rfl⟩
    | ok p =>
      exact absurd happ
        (finished_no_ok game store uid r t hlook hfin name guess now p.1 p.2
          |>.imp (fun hne => by rw [← hne]))
  refine ⟨herr, ?_, ?_⟩
  · obtain ⟨e, he⟩ := herr
    unfold storeAfterGuess
    rw [he]
  · intro hname hcont hlen
    subst hname
    unfold apply_guess_for_player
    rw [get_or_create_self store uid r now hlook]
    dsimp only
    rw [(validate_ok_iff r.guesses game.max_guesses).mpr ⟨hlen, hcont⟩]
    dsimp only
    rw [hfin]

theorem post_submit_ok_facts (scores : List ScoreEntry) (uid name : String)
    (tries duration now : Int) (entry : ScoreEntry) (scores' : List ScoreEntry)
    (h : post_submit scores uid name tries duration now = Except.ok (entry, scores')) :
    entry = ⟨uid, name, tries, duration, now⟩ ∧
    scores' = sort_scores (scores ++ [entry]) ∧
    scores.any (fun e => e.uid == uid) = false := by
  unfold post_submit at h
  by_cases h1 : tries ≤ 0
  · rw [if_pos h1] at h
    exact absurd h (by simp)
  · rw [if_neg h1] at h
    by_cases h2 : duration ≤ 0
    · rw [if_pos h2] at h
      exact absurd h (by simp)
    · rw [if_neg h2] at h
      by_cases h3 : scores.any (fun e => e.uid == uid) = true
      · rw [if_pos h3] at h
        exact absurd h (by simp)
      · rw [if_neg h3] at h
        have hinj := Except.ok.inj h
        injection hinj with he hs
        exact ⟨he.symm, by rw [← hs, ← he], by simpa using h3⟩

/-- C4: after a successful score submission for a device uid, submitting
again for the same uid (with otherwise valid inputs) fails with the
conflict error, the persisted ledger is unchanged by the failed attempt,
and uid-uniqueness of the ledger is preserved: if no two entries shared a
uid before, none do after. -/
theorem submit_twice_conflict (scores : List ScoreEntry) (uid name : String)
    (tries duration now : Int) (name2 : String) (tries2 duration2 now2 : Int)
    (entry : ScoreEntry) (scores' : List ScoreEntry)
    (h : post_submit scores uid name tries duration now = Except.ok (entry, scores'))
    (ht2 : 0 < tries2) (hd2 : 0 < duration2) :
    post_submit scores' uid name2 tries2 duration2 now2
      = Except.error (SubmitError.conflict "Score already submitted for this device.") ∧
    scoresAfterSubmit scores' uid name2 tries2 duration2 now2 = scores' ∧
    ((scores.map (fun e => e.uid)).Nodup → (scores'.map (fun e => e.uid)).Nodup) := by
  obtain ⟨hentry, hscores', hany⟩ :=
    post_submit_ok_facts scores uid name tries duration now entry scores' h
  have hmem : entry ∈ scores' := by
    rw [hscores']
    have hperm := List.perm_insertionSort scoreLe (scores ++ [entry])
    exact hperm.mem_iff.mpr (by simp)
  have hany' : scores'.any (fun e => e.uid == uid) = true := by
    rw [List.any_eq_true]
    refine ⟨entry, hmem, ?_⟩
    simp [hentry]
  have hconf : post_submit scores' uid name2 tries2 duration2 now2
      = Except.error (SubmitError.conflict "Score already submitted for this device.") := by
    unfold post_submit
    rw [if_neg (by omega), if_neg (by omega), if_pos hany']
  refine ⟨hconf, ?_, ?_⟩
  · unfold scoresAfterSubmit
    rw [hconf]
  · intro hnodup
    have hperm : List.Perm (scores'.map (fun e => e.uid))
        ((scores ++ [entry]).map (fun e => e.uid)) := by
      rw [hscores']
      exact (List.perm_insertionSort scoreLe (scores ++ [entry])).map _
    refine hperm.symm.nodup ?_
    rw [List.map_append, hentry]
    simp only [List.map_singleton]
    rw [List.nodup_append]
    refine ⟨hnodup, List.nodup_singleton _, ?_⟩
    intro a ha hb
    have hauid : a = uid := by simpa using hb
    obtain ⟨e, he, heq⟩ := List.mem_map.mp ha
    have hiss : scores.any (fun x => x.uid == uid) = true := by
      rw [List.any_eq_true]
      exact ⟨e, he, by simp [heq, hauid]⟩
    rw [hany] at hiss
    cases hiss

theorem submit_twice_conflict_witness :
    (post_submit [] "dev1" "A" 3 40 100
        = Except.ok (⟨"dev1", "A", 3, 40, 100⟩, [⟨"dev1", "A", 3, 40, 100⟩])) ∧
    (0 : Int) < 2 ∧ (0 : Int) < 50 ∧
    (post_submit [⟨"dev1", "A", 3, 40, 100⟩] "dev1" "B" 2 50 200
        = Except.error (SubmitError.conflict "Score already submitted for this device.") ∧
      scoresAfterSubmit [⟨"dev1", "A", 3, 40, 100⟩] "dev1" "B" 2 50 200
        = [⟨"dev1", "A", 3, 40, 100⟩] ∧
      ((([] : List ScoreEntry).map (fun e => e.uid)).Nodup →
        (([⟨"dev1", "A", 3, 40, 100⟩] : List ScoreEntry).map (fun e => e.uid)).Nodup)) :=
  ⟨rfl, by decide, by decide,
    submit_twice_conflict [] "dev1" "A" 3 40 100 "B" 2 50 200
      ⟨"dev1", "A", 3, 40, 100⟩ [⟨"dev1", "A", 3, 40, 100⟩] rfl
      (by decide) (by decide)⟩

/-- C5: `require_active_game` raises `GameMismatchError` carrying the
active game for every claimed identity different from the active game's
uid (in particular any identity active before a reset), and returns the
active game when called with its own uid. -/
theorem require_active_game_spec (active_game : Game) (game_uid : String) :
    (game_uid ≠ active_game.uid →
      require_active_game active_game game_uid = Except.error ⟨active_game⟩) ∧
    (game_uid = active_game.uid →
      require_active_game active_game game_uid = Except.ok active_game) := by
  constructor
  · intro hne
    unfold require_active_game
    rw [if_pos hne]
  · intro heq
    unfold require_active_game
    rw [if_neg (by simpa using heq)]

theorem require_active_game_spec_witness :
    require_active_game ⟨"new", ['A'], 6⟩ "old"
        = Except.error ⟨⟨"new", ['A'], 6⟩⟩ ∧
    require_active_game ⟨"new", ['A'], 6⟩ "new" = Except.ok ⟨"new", ['A'], 6⟩ :=
  ⟨(require_active_game_spec ⟨"new", ['A'], 6⟩ "old").1 (by decide),
    (require_active_game_spec ⟨"new", ['A'], 6⟩ "new").2 rfl⟩

/-- C9 counterexample: with the admin credential resource missing, the
engine still serves: the admin-verify handler returns a structured
per-request 500 response, and the config endpoint (whose handler takes no
admin input at all) answers normally — nothing is fatal at startup. -/
theorem admin_missing_still_serves :
    post_admin_verify none "FSQ2023"
        = AdminVerifyResponse.err 500 "Admin code unavailable." ∧
    get_config ⟨"g1", ['C','R','A','T','E']⟩ = ⟨5, 6, "g1"⟩ :=
  ⟨rfl, rfl⟩

/-- C9 amended: when the admin credential resource is missing or
unreadable, every admin-verify request is answered with the per-request
500 "Admin code unavailable." response while non-admin operations such as
config (which never consult the credential) continue to be served — the
condition is not fatal at startup. -/
theorem admin_missing_per_request_error (code : String) (state : JsonGameState) :
    post_admin_verify none code
        = AdminVerifyResponse.err 500 "Admin code unavailable." ∧
    get_config state = ⟨state.word.length, MAX_GUESSES, state.gameUid⟩ :=
  ⟨rfl, rfl⟩

theorem apply_guess_contiguous_invariant_witness :
    (lookupPlayer [freshAlice] "u1" = some freshAlice) ∧
    (apply_guess_for_player gameCAT [freshAlice] "u1" "A" ['D','O','G'] 7
        = Except.ok ([dogRec], dogRec)) ∧
    (dogRec.guesses = freshAlice.guesses
        ++ [⟨freshAlice.guesses.length + 1, ['D','O','G'],
              evaluate_guess ['D','O','G'] gameCAT.word⟩] ∧
      contiguousGuessNumbers dogRec.guesses ∧
      dogRec.guesses.length ≤ gameCAT.max_guesses) :=
  ⟨rfl, rfl,
    apply_guess_contiguous_invariant gameCAT [freshAlice] "u1" "A" ['D','O','G'] 7
      freshAlice [dogRec] dogRec rfl rfl⟩

theorem apply_guess_session_transitions_witness :
    (lookupPlayer [freshAlice] "u1" = some freshAlice) ∧
    contiguousGuessNumbers freshAlice.guesses ∧
    freshAlice.finish_time = none ∧
    freshAlice.guesses.length < gameCAT.max_guesses ∧
    ((['C','A','T'] = gameCAT.word →
      ∃ store' rec2, apply_guess_for_player gameCAT [freshAlice] "u1" freshAlice.name
          ['C','A','T'] 7 = Except.ok (store', rec2) ∧
        rec2.is_winner = true ∧ rec2.finish_time = some 7 ∧
        acceptsNoGuess gameCAT store' "u1") ∧
    (['C','A','T'] ≠ gameCAT.word →
        freshAlice.guesses.length + 1 = gameCAT.max_guesses →
      ∃ store' rec2, apply_guess_for_player gameCAT [freshAlice] "u1" freshAlice.name
          ['C','A','T'] 7 = Except.ok (store', rec2) ∧
        rec2.is_winner = false ∧ rec2.finish_time = some 7 ∧
        acceptsNoGuess gameCAT store' "u1") ∧
    (['C','A','T'] ≠ gameCAT.word →
        freshAlice.guesses.length + 1 < gameCAT.max_guesses →
      ∃ store' rec2, apply_guess_for_player gameCAT [freshAlice] "u1" freshAlice.name
          ['C','A','T'] 7 = Except.ok (store', rec2) ∧
        rec2.finish_time = none)) :=
  ⟨rfl, by decide, rfl, by decide,
    apply_guess_session_transitions gameCAT [freshAlice] "u1" freshAlice
      ['C','A','T'] 7 rfl (by decide) rfl (by decide)⟩

theorem finished_session_rejects_guess_witness :
    (lookupPlayer [finishedAlice] "u1" = some finishedAlice) ∧
    finishedAlice.finish_time = some 9 ∧
    ((∃ e, apply_guess_for_player gameCAT [finishedAlice] "u1" "ALICE" ['X'] 11
        = Except.error e) ∧
      storeAfterGuess gameCAT [finishedAlice] "u1" "ALICE" ['X'] 11 = [finishedAlice] ∧
      ("ALICE" = finishedAlice.name → contiguousGuessNumbers finishedAlice.guesses →
        finishedAlice.guesses.length ≤ gameCAT.max_guesses →
        apply_guess_for_player gameCAT [finishedAlice] "u1" "ALICE" ['X'] 11
          = Except.error
              (StoreError.invalidGuessSequence "Game is already over for this player."))) :=
  ⟨rfl, rfl,
    finished_session_rejects_guess gameCAT [finishedAlice] "u1" "ALICE" ['X'] 11
      finishedAlice 9 rfl rfl⟩

end Wordly
